import Mathlib

/-!
Verification of the recipe-to-document layout engine in `hfrecipes.py`
(repository dcragusa/HelloFreshRecipes).

The Python source is shallowly embedded below.  Python strings become
`String`, the JSON-parsed numeric amounts become exact decimal numerals
(`Dec`), nullable fields become `Option`, and code that can raise returns
an explicit failure (`Option`/`Res.fail`).  Python's `str.replace`,
`str.split` and the `in` substring test are modelled by fuel-based scans
with Python's left-to-right, non-overlapping semantics; the fuel is the
length of the scanned string, which every scan consumes at least one
character per step, so the fuel never runs out.
-/

namespace HFR

/-! ### Python string primitives -/

/-- True when `pat` is a non-empty pattern occurring at the head of `s`.
All patterns used by the source are non-empty, and Python's degenerate
empty-pattern behaviour is never exercised. -/
def matchesAt (pat s : List Char) : Bool :=
  !pat.isEmpty && pat.isPrefixOf s

/-- One left-to-right scan replacing every non-overlapping occurrence of
`pat` by `rep`, as Python's `str.replace`.  Each step consumes at least
one character of `s`. -/
def replaceFuel (pat rep : List Char) : Nat → List Char → List Char
  | 0, s => s
  | fuel + 1, s =>
    if matchesAt pat s then rep ++ replaceFuel pat rep fuel (s.drop pat.length)
    else
      match s with
      | [] => []
      | c :: rest => c :: replaceFuel pat rep fuel rest

/-- Python `s.replace(pat, rep)`. -/
def pyReplace (s pat rep : String) : String :=
  ⟨replaceFuel pat.data rep.data s.data.length s.data⟩

/-- Left-to-right scan counting non-overlapping occurrences of `pat`. -/
def countFuel (pat : List Char) : Nat → List Char → Nat
  | 0, _ => 0
  | fuel + 1, s =>
    if matchesAt pat s then countFuel pat fuel (s.drop pat.length) + 1
    else
      match s with
      | [] => 0
      | _ :: rest => countFuel pat fuel rest

/-- Left-to-right scan testing whether `pat` occurs in `s`. -/
def containsFuel (pat : List Char) : Nat → List Char → Bool
  | 0, _ => false
  | fuel + 1, s =>
    if matchesAt pat s then true
    else
      match s with
      | [] => false
      | _ :: rest => containsFuel pat fuel rest

/-- Left-to-right scan splitting `s` at every non-overlapping occurrence
of `pat`, as Python's `str.split(pat)`. -/
def splitFuel (pat : List Char) : Nat → List Char → List (List Char)
  | 0, s => [s]
  | fuel + 1, s =>
    if matchesAt pat s then [] :: splitFuel pat fuel (s.drop pat.length)
    else
      match s with
      | [] => [[]]
      | c :: rest =>
        match splitFuel pat fuel rest with
        | [] => [[c]]
        | p :: ps => (c :: p) :: ps

/-- Python `pat in s`. -/
def pyContains (s pat : String) : Bool :=
  containsFuel pat.data s.data.length s.data

/-- Number of non-overlapping occurrences of `pat` in `s`, scanning left
to right. -/
def countOcc (s pat : String) : Nat :=
  countFuel pat.data s.data.length s.data

/-- Python `s.split(pat)`. -/
def pySplit (s pat : String) : List String :=
  (splitFuel pat.data s.data.length s.data).map (fun l => ⟨l⟩)

/-- Reassemble the parts of a split with the separator in between. -/
def joinSep (sep : List Char) : List (List Char) → List Char
  | [] => []
  | [p] => p
  | p :: q :: ps => p ++ sep ++ joinSep sep (q :: ps)

lemma containsFuel_eq_countFuel_pos (pat : List Char) :
    ∀ fuel s, containsFuel pat fuel s = decide (0 < countFuel pat fuel s) := by
  intro fuel
  induction fuel with
  | zero => intro s; simp [containsFuel, countFuel]
  | succ n ih =>
    intro s
    by_cases h : matchesAt pat s = true
    · simp [containsFuel, countFuel, h]
    · cases s with
      | nil => simp [containsFuel, countFuel, h]
      | cons c rest => simp [containsFuel, countFuel, h, ih rest]

lemma splitFuel_length (pat : List Char) :
    ∀ fuel s, (splitFuel pat fuel s).length = countFuel pat fuel s + 1 := by
  intro fuel
  induction fuel with
  | zero => intro s; simp [splitFuel, countFuel]
  | succ n ih =>
    intro s
    by_cases h : matchesAt pat s = true
    · simp [splitFuel, countFuel, h, ih]
    · cases s with
      | nil => simp [splitFuel, countFuel, h]
      | cons c rest =>
        have h2 := ih rest
        cases hs : splitFuel pat n rest with
        | nil => rw [hs] at h2; simp at h2
        | cons p ps =>
          rw [hs] at h2
          simp only [List.length_cons] at h2
          simp only [splitFuel, countFuel, if_neg h, hs, List.length_cons]
          omega

lemma joinSep_splitFuel (pat : List Char) :
    ∀ fuel s, s.length ≤ fuel → joinSep pat (splitFuel pat fuel s) = s := by
  intro fuel
  induction fuel with
  | zero =>
    intro s hs
    have : s = [] := List.length_eq_zero.mp (Nat.le_zero.mp hs)
    subst this; simp [splitFuel, joinSep]
  | succ n ih =>
    intro s hs
    by_cases h : matchesAt pat s = true
    · have hpatne : pat ≠ [] := by
        intro hc; subst hc; simp [matchesAt] at h
      have hpre : pat <+: s := by
        have h2 := h
        simp only [matchesAt, Bool.and_eq_true] at h2
        exact List.isPrefixOf_iff_prefix.mp h2.2
      obtain ⟨t, ht⟩ := hpre
      have hdrop : s.drop pat.length = t := by
        rw [← ht, List.drop_left]
      have hplen : 1 ≤ pat.length := by
        cases pat with
        | nil => exact absurd rfl hpatne
        | cons _ _ => simp
      have hlen : (s.drop pat.length).length ≤ n := by
        rw [hdrop]
        have hslen : s.length = pat.length + t.length := by rw [← ht]; simp
        omega
      have hrest := ih (s.drop pat.length) hlen
      have hne : splitFuel pat n (s.drop pat.length) ≠ [] := by
        intro hc
        have hl := splitFuel_length pat n (s.drop pat.length)
        rw [hc] at hl; simp at hl
      cases hsp : splitFuel pat n (s.drop pat.length) with
      | nil => exact absurd hsp hne
      | cons p ps =>
        rw [hsp] at hrest
        simp only [splitFuel, if_pos h, hsp, joinSep, List.nil_append]
        rw [hrest, hdrop, ← ht]
    · cases s with
      | nil => simp [splitFuel, joinSep, h]
      | cons c rest =>
        have hlen : rest.length ≤ n := by simpa using hs
        have hrest := ih rest hlen
        have hne : splitFuel pat n rest ≠ [] := by
          intro hc
          have hl := splitFuel_length pat n rest
          rw [hc] at hl; simp at hl
        cases hsp : splitFuel pat n rest with
        | nil => exact absurd hsp hne
        | cons p ps =>
          rw [hsp] at hrest
          cases ps with
          | nil =>
            simp only [splitFuel, if_neg h, hsp, joinSep] at hrest ⊢
            rw [hrest]
          | cons q qs =>
            simp only [splitFuel, if_neg h, hsp, joinSep, List.cons_append,
              List.append_assoc] at hrest ⊢
            rw [hrest]

lemma replaceFuel_of_not_contains (pat rep : List Char) :
    ∀ fuel s, containsFuel pat fuel s = false → replaceFuel pat rep fuel s = s := by
  intro fuel
  induction fuel with
  | zero => intro s _; simp [replaceFuel]
  | succ n ih =>
    intro s hc
    by_cases h : matchesAt pat s = true
    · simp [containsFuel, h] at hc
    · cases s with
      | nil => simp [replaceFuel, h]
      | cons c rest =>
        have hc2 : containsFuel pat n rest = false := by
          simpa [containsFuel, h] using hc
        simp [replaceFuel, h, ih rest hc2]

lemma pyReplace_of_not_contains (s pat rep : String)
    (h : pyContains s pat = false) : pyReplace s pat rep = s := by
  obtain ⟨d⟩ := s
  simp only [pyReplace]
  rw [replaceFuel_of_not_contains pat.data rep.data d.length d (by simpa [pyContains] using h)]

/-! ### Numeric amounts

The catalog's JSON amounts parse to Python ints and (non-negative,
short) floats whose `str` is their plain decimal form.  `Dec` carries
exactly that decimal form: `frac = []` is an int, otherwise the digits
after the decimal point (each 0-9). -/

structure Dec where
  intPart : Nat
  frac : List Nat
deriving DecidableEq

/-- Python `str` of the numeral: `"2"`, `"0.25"`, `"10.5"`, ... -/
def decStr (d : Dec) : String :=
  match d.frac with
  | [] => toString d.intPart
  | _ => toString d.intPart ++ "." ++ ⟨d.frac.map Nat.digitChar⟩

/-- Numeric value of the fractional digits read as a natural number. -/
def Dec.fracNat (d : Dec) : Nat :=
  d.frac.foldl (fun a dg => a * 10 + dg) 0

/-- Exact numeric value of the numeral, for Python's numeric comparisons. -/
def Dec.toRat (d : Dec) : ℚ :=
  (d.intPart : ℚ) + (d.fracNat : ℚ) / (10 : ℚ) ^ d.frac.length

/-- Python `str(x)` where `x` is the nullable amount: `str(None)` is the
string `"None"`. -/
def optStr (a : Option Dec) : String :=
  match a with
  | none => "None"
  | some d => decStr d

/-- hfrecipes.py line 110: `'s' if amount is not None and amount > 1 else ''`. -/
def amountGtOne (a : Option Dec) : Bool :=
  match a with
  | none => false
  | some d => decide (1 < d.toRat)

/-- hfrecipes.py line 111: the literal fraction-glyph substitutions
applied, in order, to `str(amount)`. -/
def fracSub (s : String) : String :=
  pyReplace (pyReplace (pyReplace s "0.25" "¼") "0.5" "½") "0.75" "¾"

/-- The amount string actually rendered: `str(amount)` after the glyph
substitution chain. -/
def fmtAmount (a : Option Dec) : String :=
  fracSub (optStr a)

/-! ### Data model

The record shapes the source reads.  Fields Python tolerates being
`None` are `Option`; `name` and `slug` are the strings the catalog
always supplies (the code would raise on their absence and no claim
concerns that).  `nutrition` keeps only the per-entry `amount` numbers,
which is all the code reads of it. -/

structure AmountEntry where
  amount : Option Dec
  unit : Option String
deriving DecidableEq

structure YieldEntry where
  ingredients : List AmountEntry
deriving DecidableEq

structure Ingredient where
  name : String
  imagePath : Option String
deriving DecidableEq

structure StepImage where
  path : Option String
deriving DecidableEq

structure Step where
  images : List StepImage
  instructions : Option String
deriving DecidableEq

structure Recipe where
  name : String
  headline : Option String
  description : Option String
  author : Option String
  slug : String
  imagePath : Option String
  nutrition : List (Option Dec)
  ingredients : List Ingredient
  steps : List Step
  yields : List YieldEntry
deriving DecidableEq

/-- hfrecipes.py line 15. -/
def COMMON_INGREDIENTS : List String := ["Salt", "Pepper", "Sugar", "Butter"]

/-- Python truthiness of a nullable string: `None` and `''` are falsy. -/
def truthyStr (o : Option String) : Bool :=
  match o with
  | none => false
  | some s => !s.isEmpty

/-- hfrecipes.py lines 135-143.  `none` is Python `None` (the function
returns the empty string for it). -/
def prepare_str (string : Option String) (filename : Bool) : String :=
  match string with
  | none => ""
  | some s =>
    let s1 := pyReplace (pyReplace s "\n" " ") "\u2060" ""
    if filename then pyReplace (pyReplace s1 "\x22" "\x27") "*" "" else s1

/-- hfrecipes.py lines 106-119.  `none` models the Python exception
raised when `yields` is empty or either parallel list lacks index
`idx`; otherwise the `(primary, secondary)` pair. -/
def get_ingredient_details (recipe : Recipe) (idx : Nat) : Option (String × String) :=
  match recipe.yields.head? with
  | none => none
  | some y0 =>
    match y0.ingredients[idx]? with
    | none => none
    | some amount_details =>
      match recipe.ingredients[idx]? with
      | none => none
      | some ingr =>
        let pluralise := if amountGtOne amount_details.amount then "s" else ""
        let amount := fmtAmount amount_details.amount
        let units := amount_details.unit
        let name := ingr.name
        match units with
        | none => some (name, "")
        | some u =>
          if u = "unit" then some (amount, name)
          else some (amount ++ " " ++ u ++ pluralise, name)

/-- hfrecipes.py lines 159-161: the " with" name/headline derivation.
Python unpacks `recipe.name.split(' with')` into exactly two variables;
`none` models the `ValueError` raised when the split has another
arity. -/
def deriveNameHeadline (r : Recipe) : Option Recipe :=
  if pyContains r.name " with" then
    match pySplit r.name " with" with
    | [n, remainder] => some { r with name := n, headline := some ("With" ++ remainder) }
    | _ => none
  else some r

/-! ### Filesystem, drawing trace and results -/

/-- The observable effects of one run: image GETs, Document Writer
primitives, and the final document write. -/
inductive Event where
  | fetch (url : String)
  | drawImageW (path : String) (x y w : Nat)
  | drawImageH (path : String) (x y h : Nat)
  | drawText (size x y : Nat) (text : String)
  | drawCell (size x y w h : Nat) (text : String)
  | output (path : String)
deriving DecidableEq

/-- The set of files present on disk (`os.path.isfile`/`os.path.exists`
both test this; directories are created idempotently and are not
tracked). -/
structure FS where
  files : List String
deriving DecidableEq

def FS.hasFile (fs : FS) (p : String) : Bool := fs.files.contains p

/-- Outcome of one recipe, a successful run of `process_recipe`. -/
inductive Outcome where
  | skippedMalformed
  | skippedExisting
  | rendered
deriving DecidableEq

/-- Result of a stateful step: the value, the filesystem after it, and
the events it emitted in order — or a failure (a propagating Python
exception) with the filesystem and events up to that point. -/
inductive Res (α : Type) where
  | ok (a : α) (fs : FS) (evs : List Event)
  | fail (fs : FS) (evs : List Event)

/-- hfrecipes.py line 14, with both format placeholders filled. -/
def IMAGE_URL (ext : String) (height : Nat) : String :=
  "https://res.cloudinary.com/hellofresh/image/upload/f_" ++ ext ++
    ",q_auto,h_" ++ toString height ++ "/v1/hellofresh_s3"

/-- The image cache directory (`self.TEMP_DIR`). -/
def TEMP_DIR : String := "tmp"

/-- The output root (`self.RECIPE_DIR`). -/
def RECIPE_DIR : String := "recipes"

/-- hfrecipes.py lines 89-104.  `fo url` says whether the session GET of
`url` returns status 200.  A cached file short-circuits before the URL
is even formed, which is why a `None` url (Python `TypeError` in the
string concatenation) only fails on a cache miss. -/
def save_image (fo : String → Bool) (fs : FS) (url : Option String)
    (name ext : String) (height : Nat) : Res String :=
  let fname := name ++ "." ++ ext
  let path := TEMP_DIR ++ "/" ++ fname
  if fs.hasFile path then Res.ok path fs []
  else
    match url with
    | none => Res.fail fs []
    | some u =>
      let link := IMAGE_URL ext height ++ u
      if fo link then Res.ok path ⟨path :: fs.files⟩ [Event.fetch link]
      else Res.fail fs [Event.fetch link]

/-- hfrecipes.py lines 163-164: destination directory and output path. -/
def outPath (r : Recipe) : String :=
  let destDir :=
    match r.author with
    | none => RECIPE_DIR
    | some a => RECIPE_DIR ++ "/" ++ a
  destDir ++ "/" ++ prepare_str (some (r.name ++ ".pdf")) true

/-- hfrecipes.py lines 192-194: the optional ingredient image fetch and
placement, at the grid slot of rendered-ingredient counter `num_ingr`. -/
def ingrImagePart (fo : String → Bool) (fs : FS) (ingr : Ingredient)
    (num_ingr : Nat) : Res Unit :=
  if truthyStr ingr.imagePath then
    match save_image fo fs ingr.imagePath (prepare_str (some ingr.name) true) "png" 200 with
    | Res.ok p fs1 e1 =>
        Res.ok () fs1
          (e1 ++ [Event.drawImageH p (10 + 46 * (num_ingr % 4))
                    (62 + 13 * (num_ingr / 4)) 12])
    | Res.fail fs1 e1 => Res.fail fs1 e1
  else Res.ok () fs []

/-- hfrecipes.py lines 187-199: the ingredient loop.  `idx` is the
`enumerate` index into the full ingredient list (used for the
amount/unit lookup), `num_ingr` the rendered-ingredient counter (used
for layout); returns the final counter. -/
def ingrLoop (fo : String → Bool) (r : Recipe) :
    List Ingredient → Nat → Nat → FS → Res Nat
  | [], _, num_ingr, fs => Res.ok num_ingr fs []
  | ingr :: rest, idx, num_ingr, fs =>
    if ingr.name ∈ COMMON_INGREDIENTS then
      ingrLoop fo r rest (idx + 1) num_ingr fs
    else
      match ingrImagePart fo fs ingr num_ingr with
      | Res.fail fs1 e1 => Res.fail fs1 e1
      | Res.ok _ fs1 evs1 =>
        match get_ingredient_details r idx with
        | none => Res.fail fs1 evs1
        | some (ln1, ln2) =>
          match ingrLoop fo r rest (idx + 1) (num_ingr + 1) fs1 with
          | Res.ok n fs2 evs3 =>
            Res.ok n fs2
              (evs1 ++ [Event.drawText 9 (22 + 46 * (num_ingr % 4))
                          (66 + 13 * (num_ingr / 4)) ln1,
                        Event.drawText 7 (22 + 46 * (num_ingr % 4))
                          (70 + 13 * (num_ingr / 4)) ln2] ++ evs3)
          | Res.fail fs2 evs3 =>
            Res.fail fs2
              (evs1 ++ [Event.drawText 9 (22 + 46 * (num_ingr % 4))
                          (66 + 13 * (num_ingr / 4)) ln1,
                        Event.drawText 7 (22 + 46 * (num_ingr % 4))
                          (70 + 13 * (num_ingr / 4)) ln2] ++ evs3)

/-- Truthiness of `step['images'] and step['images'][0]['path']`. -/
def stepImgTruthy (st : Step) : Bool :=
  match st.images.head? with
  | none => false
  | some im => truthyStr im.path

/-- `step['images'][0]['path']` when the list is non-empty. -/
def headImagePath (st : Step) : Option String :=
  match st.images.head? with
  | none => none
  | some im => im.path

/-- hfrecipes.py lines 205-209: the optional step image fetch and
placement at vertical position `y`. -/
def stepImagePart (fo : String → Bool) (r : Recipe) (fs : FS) (st : Step)
    (idx y : Nat) : Res Unit :=
  if stepImgTruthy st then
    match save_image fo fs (headImagePath st)
        (prepare_str (some (r.slug ++ "-step_" ++ toString idx)) true) "jpg" 400 with
    | Res.ok p fs1 e1 => Res.ok () fs1 (e1 ++ [Event.drawImageW p 10 y 36])
    | Res.fail fs1 e1 => Res.fail fs1 e1
  else Res.ok () fs []

/-- hfrecipes.py lines 204-210: the step loop.  `idx` is the
`enumerate` index; each block sits at `steps_y + idx*26`. -/
def stepLoop (fo : String → Bool) (r : Recipe) (steps_y : Nat) :
    List Step → Nat → FS → Res Unit
  | [], _, fs => Res.ok () fs []
  | st :: rest, idx, fs =>
    match stepImagePart fo r fs st idx (steps_y + idx * 26) with
    | Res.fail fs1 e1 => Res.fail fs1 e1
    | Res.ok _ fs1 evs1 =>
      match stepLoop fo r steps_y rest (idx + 1) fs1 with
      | Res.ok _ fs2 evs3 =>
        Res.ok () fs2
          (evs1 ++ [Event.drawCell 10 50 (steps_y + idx * 26) 145 4
                      (prepare_str st.instructions false)] ++ evs3)
      | Res.fail fs2 evs3 =>
        Res.fail fs2
          (evs1 ++ [Event.drawCell 10 50 (steps_y + idx * 26) 145 4
                      (prepare_str st.instructions false)] ++ evs3)

/-- hfrecipes.py lines 151-213: one recipe end to end.  Draw calls are
recorded as events in program order; `pdf.output(path)` is the final
`Event.output` plus the file appearing on disk, and only happens after
every fetch and draw succeeded. -/
def process_recipe (fo : String → Bool) (fs : FS) (recipe : Recipe) : Res Outcome :=
  if recipe.steps.isEmpty || recipe.ingredients.isEmpty then
    Res.ok Outcome.skippedMalformed fs []
  else
    match deriveNameHeadline recipe with
    | none => Res.fail fs []
    | some r =>
      let path := outPath r
      if fs.hasFile path then Res.ok Outcome.skippedExisting fs []
      else
        let ev1 := Event.drawText 14 10 15 (prepare_str (some r.name) false)
        let ev2 := Event.drawText 10 10 20 (prepare_str r.headline false)
        match r.nutrition[1]? with
        | none => Res.fail fs [ev1, ev2]
        | some cal =>
          let ev3 := Event.drawText 10 10 25
            ("For 2 people, " ++ optStr cal ++ " cal per serving")
          let ev4 := Event.drawCell 7 10 30 110 4 (prepare_str r.description false)
          match save_image fo fs r.imagePath
              (prepare_str (some (r.slug ++ "-main")) true) "jpg" 600 with
          | Res.fail fs1 e1 => Res.fail fs1 ([ev1, ev2, ev3, ev4] ++ e1)
          | Res.ok mainImg fs1 e1 =>
            let ev5 := Event.drawImageW mainImg 125 10 72
            let hdr := [ev1, ev2, ev3, ev4] ++ e1 ++ [ev5]
            match ingrLoop fo r r.ingredients 0 0 fs1 with
            | Res.fail fs2 evs => Res.fail fs2 (hdr ++ evs)
            | Res.ok num_ingr fs2 evI =>
              let steps_y := 67 + 13 * ((num_ingr + 3) / 4)
              match stepLoop fo r steps_y r.steps 0 fs2 with
              | Res.fail fs3 evs => Res.fail fs3 (hdr ++ evI ++ evs)
              | Res.ok _ fs3 evS =>
                Res.ok Outcome.rendered ⟨path :: fs3.files⟩
                  (hdr ++ evI ++ evS ++ [Event.output path])

/-- hfrecipes.py lines 145-149.  `Pool.map` runs one isolated task per
recipe whose only shared state is the filesystem; modelled as a
sequential fold (the spec requires task order not to matter), where one
recipe's exception does not stop the others' tasks. -/
def process_all_recipes (fo : String → Bool) : List Recipe → FS → FS × List Event
  | [], fs => (fs, [])
  | r :: rest, fs =>
    match process_recipe fo fs r with
    | Res.ok _ fs1 evs =>
      let acc := process_all_recipes fo rest fs1
      (acc.1, evs ++ acc.2)
    | Res.fail fs1 evs =>
      let acc := process_all_recipes fo rest fs1
      (acc.1, evs ++ acc.2)

/-- The rendered (non-excluded) ingredients of a suffix of the
ingredient list, each with its original `enumerate` index, the first of
the suffix having index `i0`. -/
def renderedFrom (i0 : Nat) (l : List Ingredient) : List (Nat × Ingredient) :=
  (List.enumFrom i0 l).filter fun p => decide (p.2.name ∉ COMMON_INGREDIENTS)

/-- The rendered (non-excluded) ingredients of a recipe with their
original positional indices. -/
def renderedIngredients (r : Recipe) : List (Nat × Ingredient) :=
  renderedFrom 0 r.ingredients

/-! ### String-level facts about split/contains/count -/

lemma string_data_ext (s t : String) (h : s.data = t.data) : s = t := by
  cases s; cases t; exact congrArg String.mk h

lemma pyContains_eq_countOcc (s pat : String) :
    pyContains s pat = decide (0 < countOcc s pat) := by
  simp only [pyContains, countOcc, containsFuel_eq_countFuel_pos]

lemma pySplit_length (s pat : String) :
    (pySplit s pat).length = countOcc s pat + 1 := by
  simp only [pySplit, countOcc, List.length_map, splitFuel_length]

/-! ### Claim C1 -/

/-- Claim C1 as stated is false on the code: line 111 substitutes the
substrings "0.25"/"0.5"/"0.75" anywhere inside `str(amount)`, so the
amount 0.55 — equal to none of 0.25, 0.5, 0.75 — is not rendered by the
default numeric-to-string conversion ("0.55") but comes out as "½5". -/
theorem c1_counterexample :
    Dec.toRat ⟨0, [5, 5]⟩ ≠ (1 / 4 : ℚ) ∧ Dec.toRat ⟨0, [5, 5]⟩ ≠ (1 / 2 : ℚ) ∧
    Dec.toRat ⟨0, [5, 5]⟩ ≠ (3 / 4 : ℚ) ∧
    fmtAmount (some ⟨0, [5, 5]⟩) ≠ decStr ⟨0, [5, 5]⟩ ∧
    fmtAmount (some ⟨0, [5, 5]⟩) = "½5" ∧ decStr ⟨0, [5, 5]⟩ = "0.55" := by
  refine ⟨by norm_num [Dec.toRat, Dec.fracNat, List.foldl],
    by norm_num [Dec.toRat, Dec.fracNat, List.foldl],
    by norm_num [Dec.toRat, Dec.fracNat, List.foldl], by decide, rfl, rfl⟩

/-- Claim C1, amended: an amount whose rendered string is exactly
"0.25"/"0.5"/"0.75" renders as the glyph ¼/½/¾; an amount whose
rendered string contains none of those substrings renders via the
default numeric-to-string conversion unchanged.  (Amounts whose string
merely contains one of the substrings get that substring replaced in
place, e.g. 0.55 renders as "½5".) -/
theorem c1_fraction_substitution (a : Dec) :
    (decStr a = "0.25" → fmtAmount (some a) = "¼") ∧
    (decStr a = "0.5" → fmtAmount (some a) = "½") ∧
    (decStr a = "0.75" → fmtAmount (some a) = "¾") ∧
    (pyContains (decStr a) "0.25" = false → pyContains (decStr a) "0.5" = false →
      pyContains (decStr a) "0.75" = false → fmtAmount (some a) = decStr a) := by
  refine ⟨?_, ?_, ?_, ?_⟩
  · intro h
    show fracSub (decStr a) = "¼"
    rw [h]; rfl
  · intro h
    show fracSub (decStr a) = "½"
    rw [h]; rfl
  · intro h
    show fracSub (decStr a) = "¾"
    rw [h]; rfl
  · intro h1 h2 h3
    show fracSub (decStr a) = decStr a
    unfold fracSub
    rw [pyReplace_of_not_contains _ _ _ h1, pyReplace_of_not_contains _ _ _ h2,
      pyReplace_of_not_contains _ _ _ h3]

/-- Witness for `c1_fraction_substitution`: 0.25 renders as the glyph,
and 1.5 (string free of all three substrings) renders unchanged. -/
theorem c1_fraction_substitution_witness :
    fmtAmount (some ⟨0, [2, 5]⟩) = "¼" ∧ fmtAmount (some ⟨1, [5]⟩) = decStr ⟨1, [5]⟩ :=
  ⟨(c1_fraction_substitution ⟨0, [2, 5]⟩).1 rfl,
   (c1_fraction_substitution ⟨1, [5]⟩).2.2.2 rfl rfl rfl⟩

/-! ### Claim C2 -/

/-- A recipe whose display name contains " with" twice. -/
def rDoubleWith : Recipe :=
  ⟨"A with B with C", none, none, none, "s", none, [], [], [], []⟩

/-- Claim C2 as stated is false on the code: `split(' with')` splits at
every occurrence, and line 160 unpacks the result into exactly two
variables, so a name containing " with" twice raises `ValueError`
instead of deriving a name and headline. -/
theorem c2_counterexample :
    pyContains rDoubleWith.name " with" = true ∧ deriveNameHeadline rDoubleWith = none :=
  ⟨rfl, rfl⟩

/-- Claim C2, amended: when the display name contains exactly one
occurrence of " with", the derivation sets the name to the part before
it and the headline to "With" plus the remainder, overwriting any
existing headline; a name without the substring is left unchanged; but
a name with two or more occurrences makes the derivation fail (the
split yields more than two parts and the unpacking raises). -/
theorem c2_name_headline_split (r : Recipe) :
    (countOcc r.name " with" = 0 → deriveNameHeadline r = some r) ∧
    (countOcc r.name " with" = 1 →
      ∃ a b : String, r.name = a ++ " with" ++ b ∧
        deriveNameHeadline r =
          some { r with name := a, headline := some ("With" ++ b) }) ∧
    (2 ≤ countOcc r.name " with" → deriveNameHeadline r = none) := by
  refine ⟨?_, ?_, ?_⟩
  · intro h0
    have hc : pyContains r.name " with" = false := by
      rw [pyContains_eq_countOcc, h0]; simp
    simp [deriveNameHeadline, hc]
  · intro h1
    have hc : pyContains r.name " with" = true := by
      rw [pyContains_eq_countOcc, h1]; simp
    have hlen : (splitFuel (" with").data r.name.data.length r.name.data).length = 2 := by
      have := pySplit_length r.name " with"
      rw [h1] at this
      simpa [pySplit] using this
    obtain ⟨a, b, hsp⟩ :
        ∃ a b, splitFuel (" with").data r.name.data.length r.name.data = [a, b] := by
      cases hs : splitFuel (" with").data r.name.data.length r.name.data with
      | nil => rw [hs] at hlen; simp at hlen
      | cons x xs =>
        cases xs with
        | nil => rw [hs] at hlen; simp at hlen
        | cons y ys =>
          cases ys with
          | nil => exact ⟨x, y, rfl⟩
          | cons z zs => rw [hs] at hlen; simp at hlen
    have hjoin := joinSep_splitFuel (" with").data r.name.data.length r.name.data le_rfl
    rw [hsp] at hjoin
    simp only [joinSep] at hjoin
    have hps : pySplit r.name " with" = [⟨a⟩, ⟨b⟩] := by
      unfold pySplit
      rw [hsp]
      rfl
    refine ⟨⟨a⟩, ⟨b⟩, ?_, ?_⟩
    · exact string_data_ext _ _ (hjoin.symm.trans rfl)
    · simp [deriveNameHeadline, hc, hps]
  · intro h2
    have hc : pyContains r.name " with" = true := by
      rw [pyContains_eq_countOcc]
      have : 0 < countOcc r.name " with" := by omega
      simp [this]
    have hlen : 3 ≤ (splitFuel (" with").data r.name.data.length r.name.data).length := by
      have := pySplit_length r.name " with"
      have h3 : 3 ≤ (pySplit r.name " with").length := by omega
      simpa [pySplit] using h3
    obtain ⟨x, y, z, rest, hsp⟩ :
        ∃ x y z rest, splitFuel (" with").data r.name.data.length r.name.data
          = x :: y :: z :: rest := by
      cases hs : splitFuel (" with").data r.name.data.length r.name.data with
      | nil => rw [hs] at hlen; simp at hlen
      | cons p ps =>
        cases ps with
        | nil => rw [hs] at hlen; simp at hlen
        | cons q qs =>
          cases qs with
          | nil => rw [hs] at hlen; simp at hlen
          | cons u us => exact ⟨p, q, u, us, rfl⟩
    have hps : pySplit r.name " with" = ⟨x⟩ :: ⟨y⟩ :: ⟨z⟩ :: rest.map (fun l => ⟨l⟩) := by
      unfold pySplit
      rw [hsp]
      rfl
    simp [deriveNameHeadline, hc, hps]

/-- A recipe name with exactly one " with", carrying a prior headline. -/
def rSeared : Recipe :=
  ⟨"Seared Chicken with Lemon Sauce", some "old headline", none, none, "s",
    none, [], [], [], []⟩

/-- Witness for `c2_name_headline_split` at a single-occurrence name. -/
theorem c2_name_headline_split_witness :
    ∃ a b : String, rSeared.name = a ++ " with" ++ b ∧
      deriveNameHeadline rSeared =
        some { rSeared with name := a, headline := some ("With" ++ b) } :=
  (c2_name_headline_split rSeared).2.1 rfl

/-! ### Claim C3 -/

/-- A recipe with an ingredient but an empty `yields` list. -/
def rNoYields : Recipe :=
  ⟨"n", none, none, none, "s", none, [], [⟨"Broccoli", none⟩], [], []⟩

/-- Claim C3 as stated is false on the code: the formatter indexes
`recipe.yields[0]['ingredients'][idx]` before any null-handling branch,
so a recipe whose `yields` list is empty makes it raise (here: return
`none`) even at a valid ingredient index. -/
theorem c3_counterexample :
    0 < rNoYields.ingredients.length ∧ get_ingredient_details rNoYields 0 = none :=
  ⟨by decide, rfl⟩

/-- Claim C3, amended: the formatter is total — null amount and unit
fields are handled by its branches — whenever the recipe's `yields`
structure is non-empty and its first element's ingredient list has an
entry at the requested (valid) index. -/
theorem c3_details_total_when_aligned (r : Recipe) (idx : Nat) (y0 : YieldEntry)
    (ad : AmountEntry) (ingr : Ingredient)
    (h1 : r.yields.head? = some y0) (h2 : y0.ingredients[idx]? = some ad)
    (h3 : r.ingredients[idx]? = some ingr) :
    ∃ out, get_ingredient_details r idx = some out := by
  simp only [get_ingredient_details, h1, h2, h3]
  cases hu : ad.unit with
  | none => exact ⟨(ingr.name, ""), rfl⟩
  | some u =>
    by_cases hq : u = "unit"
    · subst hq
      refine ⟨(fmtAmount ad.amount, ingr.name), ?_⟩
      simp
    · refine ⟨(fmtAmount ad.amount ++ " " ++ u ++
        (if amountGtOne ad.amount then "s" else ""), ingr.name), ?_⟩
      simp [hq]

/-- A recipe whose `yields[0]` entry is parallel to its ingredients. -/
def rAligned : Recipe :=
  ⟨"n", none, none, none, "s", none, [],
    [⟨"Broccoli", none⟩], [], [⟨[⟨none, none⟩]⟩]⟩

/-- Witness for `c3_details_total_when_aligned`. -/
theorem c3_details_total_when_aligned_witness :
    ∃ out, get_ingredient_details rAligned 0 = some out :=
  c3_details_total_when_aligned rAligned 0 ⟨[⟨none, none⟩]⟩ ⟨none, none⟩
    ⟨"Broccoli", none⟩ rfl rfl rfl

/-! ### Claim C7 -/

/-- Claim C7: the Portion Formatter's branch postcondition.  With the
parallel amount/unit entry `ad` and ingredient `ingr` at index `idx`:
a null unit yields (name, ""); the literal unit "unit" yields the
amount string alone plus the name; any other unit yields
"{amount} {unit}" with "s" appended exactly when the numeric amount is
present and strictly greater than 1. -/
theorem c7_portion_branches (r : Recipe) (idx : Nat) (y0 : YieldEntry)
    (ad : AmountEntry) (ingr : Ingredient)
    (h1 : r.yields.head? = some y0) (h2 : y0.ingredients[idx]? = some ad)
    (h3 : r.ingredients[idx]? = some ingr) :
    (ad.unit = none → get_ingredient_details r idx = some (ingr.name, "")) ∧
    (ad.unit = some "unit" →
      get_ingredient_details r idx = some (fmtAmount ad.amount, ingr.name)) ∧
    (∀ u, ad.unit = some u → u ≠ "unit" →
      get_ingredient_details r idx =
        some (fmtAmount ad.amount ++ " " ++ u ++
          (if amountGtOne ad.amount then "s" else ""), ingr.name)) ∧
    (amountGtOne ad.amount = true ↔ ∃ d, ad.amount = some d ∧ 1 < d.toRat) := by
  refine ⟨?_, ?_, ?_, ?_⟩
  · intro hu; simp [get_ingredient_details, h1, h2, h3, hu]
  · intro hu; simp [get_ingredient_details, h1, h2, h3, hu]
  · intro u hu hne; simp [get_ingredient_details, h1, h2, h3, hu, hne]
  · cases ha : ad.amount with
    | none => simp [amountGtOne]
    | some d => simp [amountGtOne, decide_eq_true_eq]

/-- Witness recipe for C7: amount 2, unit "cup". -/
def rC7 : Recipe :=
  ⟨"n", none, none, none, "s", none, [],
    [⟨"Broccoli", none⟩], [], [⟨[⟨some ⟨2, []⟩, some "cup"⟩]⟩]⟩

/-- Witness for `c7_portion_branches`: 2 "cup" pluralizes to "2 cups". -/
theorem c7_portion_branches_witness :
    get_ingredient_details rC7 0 = some ("2 cups", "Broccoli") := by
  have hgt : amountGtOne (some ⟨2, []⟩) = true := by
    simp only [amountGtOne, decide_eq_true_eq]
    norm_num [Dec.toRat, Dec.fracNat, List.foldl]
  have h := (c7_portion_branches rC7 0 ⟨[⟨some ⟨2, []⟩, some "cup"⟩]⟩
    ⟨some ⟨2, []⟩, some "cup"⟩ ⟨"Broccoli", none⟩ rfl rfl rfl).2.2.1 "cup" rfl
    (by decide)
  rw [h, hgt]
  decide

/-! ### Claim C10 -/

/-- A recipe whose sole ingredient is lowercase "salt". -/
def rLowerSalt : Recipe :=
  ⟨"n", none, none, none, "s", none, [],
    [⟨"salt", none⟩], [], [⟨[⟨none, none⟩]⟩]⟩

/-- A recipe whose sole ingredient is "Salt" (the excluded spelling). -/
def rUpperSalt : Recipe :=
  ⟨"n", none, none, none, "s", none, [],
    [⟨"Salt", none⟩], [], [⟨[⟨none, none⟩]⟩]⟩

/-- Claim C10: exclusion is exact, case-sensitive membership in
['Salt', 'Pepper', 'Sugar', 'Butter']: "salt", "SALT" and "Sea Salt"
are not excluded — a lowercase "salt" ingredient occupies grid slot 0
and advances the rendered counter to 1, while "Salt" yields no slot, no
events, and a counter still at 0. -/
theorem c10_case_sensitive_exclusion :
    (COMMON_INGREDIENTS = ["Salt", "Pepper", "Sugar", "Butter"] ∧
     "Salt" ∈ COMMON_INGREDIENTS ∧ "salt" ∉ COMMON_INGREDIENTS ∧
     "SALT" ∉ COMMON_INGREDIENTS ∧ "Sea Salt" ∉ COMMON_INGREDIENTS) ∧
    ingrLoop (fun _ => false) rLowerSalt rLowerSalt.ingredients 0 0 ⟨[]⟩ =
      Res.ok 1 ⟨[]⟩ [Event.drawText 9 22 66 "salt", Event.drawText 7 22 70 ""] ∧
    ingrLoop (fun _ => false) rUpperSalt rUpperSalt.ingredients 0 0 ⟨[]⟩ =
      Res.ok 0 ⟨[]⟩ [] :=
  ⟨⟨rfl, by decide, by decide, by decide, by decide⟩, rfl, rfl⟩

/-! ### Claim C4 -/

lemma process_recipe_malformed (fo : String → Bool) (fs : FS) (r : Recipe)
    (h : r.steps = [] ∨ r.ingredients = []) :
    process_recipe fo fs r = Res.ok Outcome.skippedMalformed fs [] := by
  rcases h with h | h <;> simp [process_recipe, h]

/-- Claim C4: a recipe with an empty step sequence or an empty
ingredient sequence is skipped before any work: processing returns
normally (`Res.ok`, no exception) with outcome Skipped-Malformed, emits
no event at all (in particular no fetch and no document write), and
leaves the filesystem unchanged. -/
theorem c4_malformed_skip (fo : String → Bool) (fs : FS) (r : Recipe)
    (h : r.steps = [] ∨ r.ingredients = []) :
    process_recipe fo fs r = Res.ok Outcome.skippedMalformed fs [] :=
  process_recipe_malformed fo fs r h

/-- Witness for `c4_malformed_skip`: a recipe with no steps. -/
theorem c4_malformed_skip_witness :
    process_recipe (fun _ => true) ⟨[]⟩ rNoYields = Res.ok Outcome.skippedMalformed ⟨[]⟩ [] :=
  c4_malformed_skip (fun _ => true) ⟨[]⟩ rNoYields (Or.inl rfl)

/-! ### Claim C9 -/

lemma process_recipe_existing (fo : String → Bool) (fs : FS) (r rr : Recipe)
    (h1 : r.steps ≠ []) (h2 : r.ingredients ≠ [])
    (hd : deriveNameHeadline r = some rr) (hex : fs.hasFile (outPath rr) = true) :
    process_recipe fo fs r = Res.ok Outcome.skippedExisting fs [] := by
  cases hs : r.steps with
  | nil => exact absurd hs h1
  | cons s ss =>
    cases hgl : r.ingredients with
    | nil => exact absurd hgl h2
    | cons i is =>
      simp [process_recipe, hs, hgl, hd, hex]

lemma process_all_skip (fo : String → Bool) :
    ∀ (rs : List Recipe) (fs : FS),
      (∀ r ∈ rs, r.steps ≠ [] → r.ingredients ≠ [] →
        ∃ rr, deriveNameHeadline r = some rr ∧ fs.hasFile (outPath rr) = true) →
      process_all_recipes fo rs fs = (fs, []) := by
  intro rs
  induction rs with
  | nil => intro fs _; simp [process_all_recipes]
  | cons r rest ih =>
    intro fs hall
    have hrest : process_all_recipes fo rest fs = (fs, []) :=
      ih fs (fun r' hm => hall r' (List.mem_cons_of_mem _ hm))
    by_cases h1 : r.steps = []
    · simp [process_all_recipes, process_recipe_malformed fo fs r (Or.inl h1), hrest]
    · by_cases h2 : r.ingredients = []
      · simp [process_all_recipes, process_recipe_malformed fo fs r (Or.inr h2), hrest]
      · obtain ⟨rr, hd, hex⟩ := hall r (List.mem_cons_self r rest) h1 h2
        simp [process_all_recipes, process_recipe_existing fo fs r rr h1 h2 hd hex, hrest]

/-- Claim C9: rendering is idempotent through existence checks.
(1) `save_image` with the cached file already present returns its path
with no fetch event and no filesystem change; (2) a renderable recipe
whose derived output path already exists resolves to Skipped-Existing
before any fetch or draw event; (3) hence a whole batch in which every
renderable recipe's output already exists emits no events and writes no
files. -/
theorem c9_idempotent_reruns (fo : String → Bool) :
    (∀ (fs : FS) (url : Option String) (name ext : String) (height : Nat),
        fs.hasFile (TEMP_DIR ++ "/" ++ (name ++ "." ++ ext)) = true →
        save_image fo fs url name ext height =
          Res.ok (TEMP_DIR ++ "/" ++ (name ++ "." ++ ext)) fs []) ∧
    (∀ (fs : FS) (r rr : Recipe), r.steps ≠ [] → r.ingredients ≠ [] →
        deriveNameHeadline r = some rr → fs.hasFile (outPath rr) = true →
        process_recipe fo fs r = Res.ok Outcome.skippedExisting fs []) ∧
    (∀ (rs : List Recipe) (fs : FS),
        (∀ r ∈ rs, r.steps ≠ [] → r.ingredients ≠ [] →
          ∃ rr, deriveNameHeadline r = some rr ∧ fs.hasFile (outPath rr) = true) →
        process_all_recipes fo rs fs = (fs, [])) := by
  refine ⟨?_, fun fs r rr => process_recipe_existing fo fs r rr, process_all_skip fo⟩
  intro fs url name ext height hc
  simp [save_image, hc]

/-- The filesystem after a first successful run over `rC9`. -/
def fsC9 : FS := ⟨["tmp/a.png", "recipes/X.pdf"]⟩

/-- A renderable recipe whose output document already exists in `fsC9`. -/
def rC9 : Recipe :=
  ⟨"X", none, none, none, "x", none, [],
    [⟨"Broccoli", none⟩], [⟨[], none⟩], []⟩

/-- Witness for `c9_idempotent_reruns`: the cached image is returned
without a fetch, the existing recipe is skipped, and the one-recipe
batch is a no-op. -/
theorem c9_idempotent_reruns_witness :
    save_image (fun _ => false) fsC9 none "a" "png" 200 = Res.ok "tmp/a.png" fsC9 [] ∧
    process_recipe (fun _ => false) fsC9 rC9 = Res.ok Outcome.skippedExisting fsC9 [] ∧
    process_all_recipes (fun _ => false) [rC9] fsC9 = (fsC9, []) := by
  refine ⟨?_, ?_, ?_⟩
  · exact (c9_idempotent_reruns (fun _ => false)).1 fsC9 none "a" "png" 200 (by decide)
  · exact (c9_idempotent_reruns (fun _ => false)).2.1 fsC9 rC9 rC9 (by decide) (by decide)
      rfl (by decide)
  · refine (c9_idempotent_reruns (fun _ => false)).2.2 [rC9] fsC9 ?_
    intro r hm hst hin
    have hr : r = rC9 := by simpa using hm
    subst hr
    exact ⟨rC9, rfl, by decide⟩

/-! ### Characterizing the ingredient and step loops (for C5, C6) -/

lemma mem_enumFrom_lookup {α : Type} :
    ∀ (l : List α) (i0 : Nat) (p : Nat × α), p ∈ List.enumFrom i0 l →
      i0 ≤ p.1 ∧ l[p.1 - i0]? = some p.2 := by
  intro l
  induction l with
  | nil => intro i0 p h; simp [List.enumFrom] at h
  | cons a rest ih =>
    intro i0 p h
    rw [show List.enumFrom i0 (a :: rest) = (i0, a) :: List.enumFrom (i0 + 1) rest
      from rfl] at h
    rcases List.mem_cons.mp h with h | h
    · subst h
      exact ⟨le_refl _, by simp⟩
    · obtain ⟨h1, h2⟩ := ih (i0 + 1) p h
      refine ⟨by omega, ?_⟩
      have hidx : p.1 - i0 = (p.1 - (i0 + 1)) + 1 := by omega
      rw [hidx]
      simpa using h2

lemma renderedFrom_nil (i0 : Nat) : renderedFrom i0 [] = [] := by
  simp [renderedFrom, List.enumFrom]

lemma renderedFrom_cons_mem (i0 : Nat) (ingr : Ingredient) (l : List Ingredient)
    (h : ingr.name ∈ COMMON_INGREDIENTS) :
    renderedFrom i0 (ingr :: l) = renderedFrom (i0 + 1) l := by
  simp [renderedFrom, List.enumFrom, List.filter_cons, h]

lemma renderedFrom_cons_notmem (i0 : Nat) (ingr : Ingredient) (l : List Ingredient)
    (h : ingr.name ∉ COMMON_INGREDIENTS) :
    renderedFrom i0 (ingr :: l) = (i0, ingr) :: renderedFrom (i0 + 1) l := by
  simp [renderedFrom, List.enumFrom, List.filter_cons, h]

/-- What the loop guarantees for one rendered ingredient `p` (original
index, ingredient) placed at grid slot `slot`: its two text lines come
from the amount/unit lookup at the original index and are drawn at the
slot's grid coordinates, and its image (when truthy) is drawn at the
slot's image coordinates with height 12. -/
def ingrBlockOk (r : Recipe) (evs : List Event) (slot : Nat) (p : Nat × Ingredient) : Prop :=
  (∃ ln1 ln2, get_ingredient_details r p.1 = some (ln1, ln2) ∧
    Event.drawText 9 (22 + 46 * (slot % 4)) (66 + 13 * (slot / 4)) ln1 ∈ evs ∧
    Event.drawText 7 (22 + 46 * (slot % 4)) (70 + 13 * (slot / 4)) ln2 ∈ evs) ∧
  (truthyStr p.2.imagePath = true →
    ∃ pth, Event.drawImageH pth (10 + 46 * (slot % 4)) (62 + 13 * (slot / 4)) 12 ∈ evs)

lemma ingrBlockOk_mono {r : Recipe} {evs evs2 : List Event} {slot : Nat}
    {p : Nat × Ingredient} (hsub : ∀ e, e ∈ evs → e ∈ evs2)
    (h : ingrBlockOk r evs slot p) : ingrBlockOk r evs2 slot p := by
  obtain ⟨⟨ln1, ln2, hd, m1, m2⟩, himg⟩ := h
  refine ⟨⟨ln1, ln2, hd, hsub _ m1, hsub _ m2⟩, fun ht => ?_⟩
  obtain ⟨pth, hm⟩ := himg ht
  exact ⟨pth, hsub _ hm⟩

lemma ingrLoop_ok_spec (fo : String → Bool) (r : Recipe) :
    ∀ (l : List Ingredient) (i0 n0 : Nat) (fs : FS) (n' : Nat) (fs' : FS)
      (evs : List Event),
      ingrLoop fo r l i0 n0 fs = Res.ok n' fs' evs →
      n' = n0 + (renderedFrom i0 l).length ∧
      ∀ k (hk : k < (renderedFrom i0 l).length),
        ingrBlockOk r evs (n0 + k) ((renderedFrom i0 l).get ⟨k, hk⟩) := by
  intro l
  induction l with
  | nil =>
    intro i0 n0 fs n' fs' evs h
    simp only [ingrLoop, Res.ok.injEq] at h
    obtain ⟨h1, _, _⟩ := h
    refine ⟨by rw [← h1]; simp [renderedFrom_nil], ?_⟩
    intro k hk
    rw [renderedFrom_nil] at hk
    simp at hk
  | cons ingr rest ih =>
    intro i0 n0 fs n' fs' evs h
    simp only [ingrLoop] at h
    by_cases hmem : ingr.name ∈ COMMON_INGREDIENTS
    · rw [if_pos hmem] at h
      rw [renderedFrom_cons_mem i0 ingr rest hmem]
      exact ih (i0 + 1) n0 fs n' fs' evs h
    · rw [if_neg hmem] at h
      cases himg : ingrImagePart fo fs ingr n0 with
      | fail fs1 e1 =>
        simp only [himg] at h
        exact Res.noConfusion h
      | ok u fs1 evs1 =>
        simp only [himg] at h
        cases hdet : get_ingredient_details r i0 with
        | none =>
          simp only [hdet] at h
          exact Res.noConfusion h
        | some pr =>
          obtain ⟨ln1, ln2⟩ := pr
          simp only [hdet] at h
          cases hrec : ingrLoop fo r rest (i0 + 1) (n0 + 1) fs1 with
          | fail fs2 evs3 =>
            simp only [hrec] at h
            exact Res.noConfusion h
          | ok n2 fs2 evs3 =>
            simp only [hrec, Res.ok.injEq] at h
            obtain ⟨hn, hfs, hevs⟩ := h
            subst hevs
            obtain ⟨ihn, ihb⟩ := ih (i0 + 1) (n0 + 1) fs1 n2 fs2 evs3 hrec
            rw [renderedFrom_cons_notmem i0 ingr rest hmem]
            refine ⟨by simp only [List.length_cons]; omega, ?_⟩
            intro k hk
            cases k with
            | zero =>
              show ingrBlockOk r _ (n0 + 0) (i0, ingr)
              constructor
              · exact ⟨ln1, ln2, hdet, by simp, by simp⟩
              · intro ht
                simp only [ingrImagePart, ht, if_true] at himg
                cases hsave : save_image fo fs ingr.imagePath
                    (prepare_str (some ingr.name) true) "png" 200 with
                | fail fsa ea =>
                  simp only [hsave] at himg
                  exact Res.noConfusion himg
                | ok p fsa ea =>
                  simp only [hsave, Res.ok.injEq] at himg
                  obtain ⟨_, _, hevs1⟩ := himg
                  refine ⟨p, ?_⟩
                  rw [← hevs1]
                  simp
            | succ k =>
              have hk2 : k < (renderedFrom (i0 + 1) rest).length := by
                simpa using Nat.lt_of_succ_lt_succ (by simpa using hk)
              have hb := ihb k hk2
              have hslot : n0 + 1 + k = n0 + (k + 1) := by omega
              rw [hslot] at hb
              have hget : ((i0, ingr) :: renderedFrom (i0 + 1) rest).get ⟨k + 1, hk⟩ =
                  (renderedFrom (i0 + 1) rest).get ⟨k, hk2⟩ := rfl
              rw [hget]
              refine ingrBlockOk_mono (fun e he => ?_) hb
              simp [he]

lemma stepLoop_ok_spec (fo : String → Bool) (r : Recipe) (steps_y : Nat) :
    ∀ (l : List Step) (j0 : Nat) (fs fs' : FS) (evs : List Event),
      stepLoop fo r steps_y l j0 fs = Res.ok () fs' evs →
      ∀ j (hj : j < l.length),
        Event.drawCell 10 50 (steps_y + (j0 + j) * 26) 145 4
            (prepare_str (l.get ⟨j, hj⟩).instructions false) ∈ evs ∧
        (stepImgTruthy (l.get ⟨j, hj⟩) = true →
          ∃ pth, Event.drawImageW pth 10 (steps_y + (j0 + j) * 26) 36 ∈ evs) := by
  intro l
  induction l with
  | nil =>
    intro j0 fs fs' evs h j hj
    simp at hj
  | cons st rest ih =>
    intro j0 fs fs' evs h j hj
    simp only [stepLoop] at h
    cases himg : stepImagePart fo r fs st j0 (steps_y + j0 * 26) with
    | fail fs1 e1 =>
      simp only [himg] at h
      exact Res.noConfusion h
    | ok u fs1 evs1 =>
      simp only [himg] at h
      cases hrec : stepLoop fo r steps_y rest (j0 + 1) fs1 with
      | fail fs2 evs3 =>
        simp only [hrec] at h
        exact Res.noConfusion h
      | ok u2 fs2 evs3 =>
        simp only [hrec, Res.ok.injEq] at h
        obtain ⟨_, _, hevs⟩ := h
        subst hevs
        cases j with
        | zero =>
          constructor
          · simp
          · intro ht
            have ht2 : stepImgTruthy st = true := ht
            unfold stepImagePart at himg
            rw [if_pos ht2] at himg
            cases hsave : save_image fo fs (headImagePath st)
                (prepare_str (some (r.slug ++ "-step_" ++ toString j0)) true) "jpg" 400 with
            | fail fsa ea =>
              simp only [hsave] at himg
              exact Res.noConfusion himg
            | ok p fsa ea =>
              simp only [hsave, Res.ok.injEq] at himg
              obtain ⟨_, _, hevs1⟩ := himg
              refine ⟨p, ?_⟩
              rw [← hevs1]
              simp
        | succ j =>
          have hj2 : j < rest.length := by simpa using Nat.lt_of_succ_lt_succ (by simpa using hj)
          have hb := ih (j0 + 1) fs1 fs2 evs3 hrec j hj2
          have hidx : j0 + 1 + j = j0 + (j + 1) := by omega
          rw [hidx] at hb
          have hget : ((st :: rest).get ⟨j + 1, hj⟩) = rest.get ⟨j, hj2⟩ := rfl
          rw [hget]
          obtain ⟨hc, hi⟩ := hb
          refine ⟨List.mem_append_right _ hc, fun ht => ?_⟩
          obtain ⟨pth, hm⟩ := hi ht
          exact ⟨pth, List.mem_append_right _ hm⟩

/-! ### Claim C5 -/

/-- Claim C5: when the ingredient loop completes with counter `N` and
the step loop (started at the origin `67 + 13*ceil(N/4)` the code
computes) completes, then `N` is the rendered (non-excluded) ingredient
count, the k-th rendered ingredient's image (when present) is drawn at
`(10 + 46*(k mod 4), 62 + 13*(k div 4))` with height 12, its primary
text line at `(22 + 46*(k mod 4), 66 + 13*(k div 4))` and its secondary
line at the same x with `y = 70 + 13*(k div 4)`, and the j-th step's
block sits at `y = 67 + 13*ceil(N/4) + 26*j`, its image (when usable)
at x = 10 with width 36 and its wrapped instruction text at x = 50 with
width 145. -/
theorem c5_grid_and_step_layout (fo : String → Bool) (r : Recipe)
    (fs fs1 fs2 fs3 : FS) (N : Nat) (evI evS : List Event)
    (hI : ingrLoop fo r r.ingredients 0 0 fs = Res.ok N fs1 evI)
    (hS : stepLoop fo r (67 + 13 * ((N + 3) / 4)) r.steps 0 fs2 = Res.ok () fs3 evS) :
    N = (renderedIngredients r).length ∧
    (∀ k (hk : k < (renderedIngredients r).length),
      (truthyStr ((renderedIngredients r).get ⟨k, hk⟩).2.imagePath = true →
        ∃ pth, Event.drawImageH pth (10 + 46 * (k % 4)) (62 + 13 * (k / 4)) 12 ∈ evI) ∧
      (∃ ln1 ln2,
        get_ingredient_details r ((renderedIngredients r).get ⟨k, hk⟩).1 = some (ln1, ln2) ∧
        Event.drawText 9 (22 + 46 * (k % 4)) (66 + 13 * (k / 4)) ln1 ∈ evI ∧
        Event.drawText 7 (22 + 46 * (k % 4)) (70 + 13 * (k / 4)) ln2 ∈ evI)) ∧
    (∀ j (hj : j < r.steps.length),
      Event.drawCell 10 50 (67 + 13 * ((N + 3) / 4) + 26 * j) 145 4
        (prepare_str (r.steps.get ⟨j, hj⟩).instructions false) ∈ evS ∧
      (stepImgTruthy (r.steps.get ⟨j, hj⟩) = true →
        ∃ pth, Event.drawImageW pth 10 (67 + 13 * ((N + 3) / 4) + 26 * j) 36 ∈ evS)) := by
  obtain ⟨hN, hblocks⟩ := ingrLoop_ok_spec fo r r.ingredients 0 0 fs N fs1 evI hI
  have hsteps := stepLoop_ok_spec fo r (67 + 13 * ((N + 3) / 4)) r.steps 0 fs2 fs3 evS hS
  refine ⟨by simpa [renderedIngredients] using hN, ?_, ?_⟩
  · intro k hk
    have hb := hblocks k hk
    rw [Nat.zero_add] at hb
    obtain ⟨⟨ln1, ln2, hd, m1, m2⟩, himg⟩ := hb
    exact ⟨himg, ln1, ln2, hd, m1, m2⟩
  · intro j hj
    have hs := hsteps j hj
    rw [Nat.zero_add, Nat.mul_comm j 26] at hs
    exact hs

/-- Witness recipe for C5/C6: one excluded ingredient, one rendered
ingredient, one step. -/
def rFull : Recipe :=
  ⟨"n", none, none, none, "x", none, [],
    [⟨"Salt", none⟩, ⟨"Broccoli", none⟩], [⟨[], some "Cook."⟩],
    [⟨[⟨none, none⟩, ⟨none, none⟩]⟩]⟩

/-- Witness for `c5_grid_and_step_layout` on `rFull`: the counter ends
at 1 = rendered count and the single step's wrapped text sits at
y = 67 + 13 + 0 = 80. -/
theorem c5_grid_and_step_layout_witness :
    (1 : Nat) = (renderedIngredients rFull).length ∧
    Event.drawCell 10 50 (67 + 13 * ((1 + 3) / 4) + 26 * 0) 145 4 "Cook." ∈
      ([Event.drawCell 10 50 80 145 4 "Cook."] : List Event) := by
  have h := c5_grid_and_step_layout (fun _ => false) rFull ⟨[]⟩ ⟨[]⟩ ⟨[]⟩ ⟨[]⟩ 1
    [Event.drawText 9 22 66 "Broccoli", Event.drawText 7 22 70 ""]
    [Event.drawCell 10 50 80 145 4 "Cook."] rfl rfl
  exact ⟨h.1, (h.2.2 0 (by decide)).1⟩

/-! ### Claim C6 -/

/-- Claim C6: an ingredient whose name is in the common-pantry
exclusion set produces no event at all and leaves the rendered counter
unchanged (the loop continues exactly as if it were absent, with only
the enumerate index advanced); yet the amount/unit lookup for each
rendered ingredient uses its original positional index — the k-th
rendered ingredient carries its original index `idx` with
`r.ingredients[idx] = ingredient`, and the text drawn in its slot comes
from `get_ingredient_details r idx`, which reads
`yields[0].ingredients[idx]`.  So exclusions never shift the
ingredient-to-amount correspondence. -/
theorem c6_exclusion_no_shift (fo : String → Bool) (r : Recipe) :
    (∀ (l : List Ingredient) (ingr : Ingredient) (idx n : Nat) (fs : FS),
        ingr.name ∈ COMMON_INGREDIENTS →
        ingrLoop fo r (ingr :: l) idx n fs = ingrLoop fo r l (idx + 1) n fs) ∧
    (∀ (fs fs' : FS) (N : Nat) (evs : List Event),
        ingrLoop fo r r.ingredients 0 0 fs = Res.ok N fs' evs →
        ∀ k (hk : k < (renderedIngredients r).length),
          r.ingredients[((renderedIngredients r).get ⟨k, hk⟩).1]? =
            some ((renderedIngredients r).get ⟨k, hk⟩).2 ∧
          ∃ ln1 ln2,
            get_ingredient_details r ((renderedIngredients r).get ⟨k, hk⟩).1 =
              some (ln1, ln2) ∧
            Event.drawText 9 (22 + 46 * (k % 4)) (66 + 13 * (k / 4)) ln1 ∈ evs) := by
  constructor
  · intro l ingr idx n fs hmem
    simp [ingrLoop, hmem]
  · intro fs fs' N evs h k hk
    have hmem : (renderedIngredients r).get ⟨k, hk⟩ ∈ renderedIngredients r :=
      List.get_mem _ _ _
    have hmem2 : (renderedIngredients r).get ⟨k, hk⟩ ∈ List.enumFrom 0 r.ingredients :=
      List.mem_of_mem_filter hmem
    have hlook := mem_enumFrom_lookup r.ingredients 0 _ hmem2
    obtain ⟨⟨ln1, ln2, hd, m1, _⟩, _⟩ :=
      (ingrLoop_ok_spec fo r r.ingredients 0 0 fs N fs' evs h).2 k hk
    rw [Nat.zero_add] at m1
    refine ⟨?_, ln1, ln2, hd, m1⟩
    simpa using hlook.2

/-- Witness for `c6_exclusion_no_shift` on `rFull`: prepending "Salt"
only advances the enumerate index, and the single rendered ingredient
(original index 1) is looked up at index 1. -/
theorem c6_exclusion_no_shift_witness :
    (ingrLoop (fun _ => false) rFull [⟨"Salt", none⟩, ⟨"Broccoli", none⟩] 0 0 ⟨[]⟩ =
      ingrLoop (fun _ => false) rFull [⟨"Broccoli", none⟩] 1 0 ⟨[]⟩) ∧
    (rFull.ingredients[(1 : Nat)]? = some ⟨"Broccoli", none⟩ ∧
      ∃ ln1 ln2, get_ingredient_details rFull 1 = some (ln1, ln2) ∧
        Event.drawText 9 (22 + 46 * (0 % 4)) (66 + 13 * (0 / 4)) ln1 ∈
          ([Event.drawText 9 22 66 "Broccoli", Event.drawText 7 22 70 ""] : List Event)) := by
  constructor
  · exact (c6_exclusion_no_shift (fun _ => false) rFull).1 [⟨"Broccoli", none⟩]
      ⟨"Salt", none⟩ 0 0 ⟨[]⟩ (by decide)
  · exact (c6_exclusion_no_shift (fun _ => false) rFull).2 ⟨[]⟩ ⟨[]⟩ 1
      [Event.drawText 9 22 66 "Broccoli", Event.drawText 7 22 70 ""] rfl 0 (by decide)

/-! ### Claim C8 -/

/-- The event trace of a step's result, successful or not. -/
def Res.events {α : Type} : Res α → List Event
  | Res.ok _ _ evs => evs
  | Res.fail _ evs => evs

lemma noOutput_save_image (fo : String → Bool) (fs : FS) (url : Option String)
    (name ext : String) (height : Nat) (p : String) :
    Event.output p ∉ (save_image fo fs url name ext height).events := by
  by_cases hc : fs.hasFile (TEMP_DIR ++ "/" ++ (name ++ "." ++ ext)) = true
  · simp [save_image, hc, Res.events]
  · cases url with
    | none => simp [save_image, hc, Res.events]
    | some u =>
      by_cases hf : fo (IMAGE_URL ext height ++ u) = true
      · simp [save_image, hc, hf, Res.events]
      · simp [save_image, hc, hf, Res.events]

lemma noOutput_ingrImagePart (fo : String → Bool) (fs : FS) (ingr : Ingredient)
    (n : Nat) (p : String) :
    Event.output p ∉ (ingrImagePart fo fs ingr n).events := by
  by_cases ht : truthyStr ingr.imagePath = true
  · have hs := noOutput_save_image fo fs ingr.imagePath
      (prepare_str (some ingr.name) true) "png" 200 p
    cases hsave : save_image fo fs ingr.imagePath
        (prepare_str (some ingr.name) true) "png" 200 with
    | ok q fs1 e1 =>
      rw [hsave] at hs
      simp only [Res.events] at hs
      simp [ingrImagePart, ht, hsave, Res.events, hs]
    | fail fs1 e1 =>
      rw [hsave] at hs
      simp only [Res.events] at hs
      simp [ingrImagePart, ht, hsave, Res.events, hs]
  · simp [ingrImagePart, ht, Res.events]

lemma noOutput_ingrLoop (fo : String → Bool) (r : Recipe) :
    ∀ (l : List Ingredient) (i0 n0 : Nat) (fs : FS) (p : String),
      Event.output p ∉ (ingrLoop fo r l i0 n0 fs).events := by
  intro l
  induction l with
  | nil => intro i0 n0 fs p; simp [ingrLoop, Res.events]
  | cons ingr rest ih =>
    intro i0 n0 fs p
    by_cases hmem : ingr.name ∈ COMMON_INGREDIENTS
    · simpa [ingrLoop, hmem] using ih (i0 + 1) n0 fs p
    · have hip := noOutput_ingrImagePart fo fs ingr n0 p
      cases himg : ingrImagePart fo fs ingr n0 with
      | fail fs1 e1 =>
        rw [himg] at hip
        simp only [Res.events] at hip
        simp [ingrLoop, hmem, himg, Res.events, hip]
      | ok u fs1 evs1 =>
        rw [himg] at hip
        simp only [Res.events] at hip
        cases hdet : get_ingredient_details r i0 with
        | none => simp [ingrLoop, hmem, himg, hdet, Res.events, hip]
        | some pr =>
          obtain ⟨ln1, ln2⟩ := pr
          have hrec := ih (i0 + 1) (n0 + 1) fs1 p
          cases hr : ingrLoop fo r rest (i0 + 1) (n0 + 1) fs1 with
          | ok n2 fs2 evs3 =>
            rw [hr] at hrec
            simp only [Res.events] at hrec
            simp [ingrLoop, hmem, himg, hdet, hr, Res.events, hip, hrec]
          | fail fs2 evs3 =>
            rw [hr] at hrec
            simp only [Res.events] at hrec
            simp [ingrLoop, hmem, himg, hdet, hr, Res.events, hip, hrec]

lemma noOutput_stepImagePart (fo : String → Bool) (r : Recipe) (fs : FS) (st : Step)
    (idx y : Nat) (p : String) :
    Event.output p ∉ (stepImagePart fo r fs st idx y).events := by
  by_cases ht : stepImgTruthy st = true
  · have hs := noOutput_save_image fo fs (headImagePath st)
      (prepare_str (some (r.slug ++ "-step_" ++ toString idx)) true) "jpg" 400 p
    cases hsave : save_image fo fs (headImagePath st)
        (prepare_str (some (r.slug ++ "-step_" ++ toString idx)) true) "jpg" 400 with
    | ok q fs1 e1 =>
      rw [hsave] at hs
      simp only [Res.events] at hs
      simp [stepImagePart, ht, hsave, Res.events, hs]
    | fail fs1 e1 =>
      rw [hsave] at hs
      simp only [Res.events] at hs
      simp [stepImagePart, ht, hsave, Res.events, hs]
  · simp [stepImagePart, ht, Res.events]

lemma noOutput_stepLoop (fo : String → Bool) (r : Recipe) (steps_y : Nat) :
    ∀ (l : List Step) (j0 : Nat) (fs : FS) (p : String),
      Event.output p ∉ (stepLoop fo r steps_y l j0 fs).events := by
  intro l
  induction l with
  | nil => intro j0 fs p; simp [stepLoop, Res.events]
  | cons st rest ih =>
    intro j0 fs p
    have hip := noOutput_stepImagePart fo r fs st j0 (steps_y + j0 * 26) p
    cases himg : stepImagePart fo r fs st j0 (steps_y + j0 * 26) with
    | fail fs1 e1 =>
      rw [himg] at hip
      simp only [Res.events] at hip
      simp [stepLoop, himg, Res.events, hip]
    | ok u fs1 evs1 =>
      rw [himg] at hip
      simp only [Res.events] at hip
      have hrec := ih (j0 + 1) fs1 p
      cases hr : stepLoop fo r steps_y rest (j0 + 1) fs1 with
      | ok u2 fs2 evs3 =>
        rw [hr] at hrec
        simp only [Res.events] at hrec
        simp [stepLoop, himg, hr, Res.events, hip, hrec]
      | fail fs2 evs3 =>
        rw [hr] at hrec
        simp only [Res.events] at hrec
        simp [stepLoop, himg, hr, Res.events, hip, hrec]

lemma noOutput_process_fail (fo : String → Bool) (fs : FS) (r : Recipe)
    (fs' : FS) (evs : List Event)
    (h : process_recipe fo fs r = Res.fail fs' evs) (p : String) :
    Event.output p ∉ evs := by
  by_cases hm : (r.steps.isEmpty || r.ingredients.isEmpty) = true
  · simp [process_recipe, hm] at h
  · cases hd : deriveNameHeadline r with
    | none =>
      simp [process_recipe, hm, hd] at h
      obtain ⟨_, he⟩ := h
      subst he
      simp
    | some rr =>
      by_cases hex : fs.hasFile (outPath rr) = true
      · simp [process_recipe, hm, hd, hex] at h
      · cases hn : rr.nutrition[1]? with
        | none =>
          simp [process_recipe, hm, hd, hex, hn] at h
          obtain ⟨_, he⟩ := h
          subst he
          simp
        | some cal =>
          have hms := noOutput_save_image fo fs rr.imagePath
            (prepare_str (some (rr.slug ++ "-main")) true) "jpg" 600 p
          cases hsv : save_image fo fs rr.imagePath
              (prepare_str (some (rr.slug ++ "-main")) true) "jpg" 600 with
          | fail fs1 e1 =>
            rw [hsv] at hms
            simp only [Res.events] at hms
            simp [process_recipe, hm, hd, hex, hn, hsv] at h
            obtain ⟨_, he⟩ := h
            subst he
            simp [hms]
          | ok img fs1 e1 =>
            rw [hsv] at hms
            simp only [Res.events] at hms
            have hil := noOutput_ingrLoop fo rr rr.ingredients 0 0 fs1 p
            cases hi : ingrLoop fo rr rr.ingredients 0 0 fs1 with
            | fail fs2 evs2 =>
              rw [hi] at hil
              simp only [Res.events] at hil
              simp [process_recipe, hm, hd, hex, hn, hsv, hi] at h
              obtain ⟨_, he⟩ := h
              subst he
              simp [hms, hil]
            | ok ni fs2 evI =>
              rw [hi] at hil
              simp only [Res.events] at hil
              have hsl := noOutput_stepLoop fo rr (67 + 13 * ((ni + 3) / 4))
                rr.steps 0 fs2 p
              cases hst : stepLoop fo rr (67 + 13 * ((ni + 3) / 4)) rr.steps 0 fs2 with
              | fail fs3 evs3 =>
                rw [hst] at hsl
                simp only [Res.events] at hsl
                simp [process_recipe, hm, hd, hex, hn, hsv, hi, hst] at h
                obtain ⟨_, he⟩ := h
                subst he
                simp [hms, hil, hsl]
              | ok u fs3 evS =>
                simp [process_recipe, hm, hd, hex, hn, hsv, hi, hst] at h

/-- Claim C8: while a recipe is being composed, the document write is
the final action — a run of `process_recipe` that fails (any propagating
exception, in particular a non-success image fetch) emits no
`Event.output`, so a Failed recipe leaves no output document and no
half-written document. -/
theorem c8_no_partial_document (fo : String → Bool) (fs : FS) (r : Recipe)
    (fs' : FS) (evs : List Event)
    (h : process_recipe fo fs r = Res.fail fs' evs) :
    ∀ p, Event.output p ∉ evs :=
  fun p => noOutput_process_fail fo fs r fs' evs h p

/-- A renderable recipe whose main-image fetch will fail (nothing
cached, fetcher always non-200). -/
def rFetchFail : Recipe :=
  ⟨"X", none, none, none, "x", some "/img.jpg", [some ⟨100, []⟩, some ⟨650, []⟩],
    [⟨"Broccoli", none⟩], [⟨[], some "Cook."⟩], [⟨[⟨none, none⟩]⟩]⟩

/-- Witness for `c8_no_partial_document`: with an always-failing
fetcher the recipe fails at the main image; its trace holds the four
header draws and the attempted fetch, and no output event. -/
theorem c8_no_partial_document_witness :
    Event.output "recipes/X.pdf" ∉
      [Event.drawText 14 10 15 "X", Event.drawText 10 10 20 "",
       Event.drawText 10 10 25 "For 2 people, 650 cal per serving",
       Event.drawCell 7 10 30 110 4 "",
       Event.fetch (IMAGE_URL "jpg" 600 ++ "/img.jpg")] :=
  c8_no_partial_document (fun _ => false) ⟨[]⟩ rFetchFail ⟨[]⟩
    [Event.drawText 14 10 15 "X", Event.drawText 10 10 20 "",
     Event.drawText 10 10 25 "For 2 people, 650 cal per serving",
     Event.drawCell 7 10 30 110 4 "",
     Event.fetch (IMAGE_URL "jpg" 600 ++ "/img.jpg")] rfl "recipes/X.pdf"

end HFR
